import Mathlib

/-!
Multirole: the Hornet shared-memory bridge (`HornetWrapper.cpp`).

A shallow embedding of `src/Multirole/Core/HornetWrapper.cpp`.

* Machine integers are natural numbers reduced modulo `2 ^ (8 * width)`;
  the data model is LP64 (`int`/`uint32_t` 4 bytes, `uint16_t` 2 bytes,
  `std::size_t`, `void*`, `OCG_Duel` and `unsigned long` 8 bytes), byte order
  little-endian.
* The byte buffer `hss->bytes` is a list of bytes whose length is the buffer
  capacity; an access outside it (undefined behaviour in the source) makes the
  embedded operation yield `Outcome.undefined`.
* The peer process is a script: one `PeerStep` per `timed_wait` of the host,
  holding what the peer stores into the segment during that wait and what
  `Process::IsRunning` answers if it is polled after the wait.
* Collaborators (`IDataSupplier`, `IScriptSupplier`, `ILogger`), the process
  supervisor and the shared-memory namespace are observed through a trace of
  events and a list of existing names.
-/

namespace Ignis.Multirole.Core

/-! ## Action codes -/

/-- The action codes, as enumerated by the `switch` of `NotifyAndWait`. -/
inductive Action
  | NO_WORK
  | HEARTBEAT
  | EXIT
  | OCG_GET_VERSION
  | OCG_CREATE_DUEL
  | OCG_DESTROY_DUEL
  | OCG_DUEL_NEW_CARD
  | OCG_START_DUEL
  | OCG_DUEL_PROCESS
  | OCG_DUEL_GET_MESSAGE
  | OCG_DUEL_SET_RESPONSE
  | OCG_LOAD_SCRIPT
  | OCG_DUEL_QUERY_COUNT
  | OCG_DUEL_QUERY
  | OCG_DUEL_QUERY_LOCATION
  | OCG_DUEL_QUERY_FIELD
  | CB_DATA_READER
  | CB_SCRIPT_READER
  | CB_LOG_HANDLER
  | CB_DATA_READER_DONE
  | CB_DONE
  deriving DecidableEq, Repr

/-- The four callback codes, the ones `NotifyAndWait` services. -/
def Action.isCallback : Action → Bool
  | .CB_DATA_READER => true
  | .CB_SCRIPT_READER => true
  | .CB_LOG_HANDLER => true
  | .CB_DATA_READER_DONE => true
  | _ => false

/-! ## Segment naming -/

/-- One upper-case hexadecimal digit, as printed by the `X` conversion. -/
def hexDigitUpper (d : Nat) : Char :=
  if d < 10 then Char.ofNat (48 + d) else Char.ofNat (55 + d)

/-- Value of a hexadecimal digit character (upper case). -/
def hexValue (c : Char) : Nat :=
  if c.toNat < 58 then c.toNat - 48 else c.toNat - 55

/-- The `%lX` conversion of `printf`: upper-case hexadecimal, most significant
digit first, no leading zeros, at least one digit. -/
def formatHexUpper (n : Nat) : List Char :=
  if n = 0 then ['0'] else (Nat.digits 16 n).reverse.map hexDigitUpper

/-- Reads a hexadecimal numeral, most significant digit first. -/
def parseHexUpper (cs : List Char) : Nat :=
  cs.foldl (fun acc c => 16 * acc + hexValue c) 0

/-- The call `std::snprintf(buf, size, ...)`: at most `size - 1` characters of
the formatted text are stored, followed by the terminating NUL. -/
def snprintf (size : Nat) (formatted : List Char) : List Char :=
  formatted.take (size - 1)

/-- `MakeHornetName(uintptr_t addr)`: formats `"Hornet0x%lX"` into a 25-byte
buffer. The argument is converted to `unsigned long` (64 bits). -/
def MakeHornetName (addr : Nat) : String :=
  String.mk (snprintf 25 ("Hornet0x".toList ++ formatHexUpper (addr % 2 ^ 64)))

/-! ## Binary codec (`Read.inl`, `Write.inl`) -/

/-- The `width` bytes of the object representation of an unsigned value. -/
def encodeLE : Nat → Nat → List Nat
  | 0, _ => []
  | w + 1, v => v % 256 :: encodeLE w (v / 256)

/-- The unsigned value held by a sequence of bytes. -/
def decodeLE : List Nat → Nat
  | [] => 0
  | b :: bs => b % 256 + 256 * decodeLE bs

/-- The `int` (32-bit two's complement) denoted by an unsigned 32-bit value. -/
def toInt32 (v : Nat) : Int :=
  if v % 2 ^ 32 < 2 ^ 31 then (v % 2 ^ 32 : Nat) else ((v % 2 ^ 32 : Nat) : Int) - 2 ^ 32

/-- The unsigned 32-bit value with the bit pattern of an `int`. -/
def ofInt32 (i : Int) : Nat := (i % 2 ^ 32).toNat

/-- A pointer into the byte buffer: the buffer and an offset from
`hss->bytes.data()`. -/
structure Cursor where
  bytes : List Nat
  pos : Nat
  deriving DecidableEq, Repr

/-- The statement `ptr += n`. -/
def Cursor.advance (c : Cursor) (n : Nat) : Cursor := { c with pos := c.pos + n }

/-- The call `std::memcpy(wptr, src, n)` with `src` holding `n` bytes: stores
them at the cursor and leaves the cursor where it is. Storing outside the buffer
is undefined, `none`. -/
def memcpyTo (src : List Nat) (c : Cursor) : Option Cursor :=
  if c.pos + src.length ≤ c.bytes.length then
    some { c with bytes := c.bytes.take c.pos ++ src ++ c.bytes.drop (c.pos + src.length) }
  else none

/-- The call `std::memcpy(dst, rptr, n)`: the `n` bytes at the cursor. Loading
outside the buffer is undefined, `none`. -/
def memcpyFrom (n : Nat) (c : Cursor) : Option (List Nat) :=
  if c.pos + n ≤ c.bytes.length then some ((c.bytes.drop c.pos).take n) else none

/-- Modelled from the spec: `Write<T>(ptr, value)` of the absent `Write.inl`,
"fixed-width, sequential, no-padding" encoding into a byte cursor: stores the
`width` bytes of the value at the cursor and advances the cursor by `width`. -/
def Write (width : Nat) (value : Nat) (c : Cursor) : Option Cursor :=
  (memcpyTo (encodeLE width value) c).map (fun c => c.advance width)

/-- Modelled from the spec: `Write<T>` of the absent `Write.inl` for a
fixed-layout record `T`, given by its object representation: the record is
"encoded wholesale into the buffer" and the cursor advances by its size. -/
def WriteRecord (repr : List Nat) (c : Cursor) : Option Cursor :=
  (memcpyTo repr c).map (fun c => c.advance repr.length)

/-- Modelled from the spec: `Read<T>(ptr)` of the absent `Read.inl`: decodes the
`width` bytes at the cursor and advances the cursor by `width`. -/
def Read (width : Nat) (c : Cursor) : Option (Nat × Cursor) :=
  (memcpyFrom width c).map (fun bs => (decodeLE bs, c.advance width))

/-- Modelled from the spec: `Read<T>` of the absent `Read.inl` for a fixed-layout
record of `size` bytes: its object representation, cursor advanced by `size`. -/
def ReadRecord (size : Nat) (c : Cursor) : Option (List Nat × Cursor) :=
  (memcpyFrom size c).map (fun bs => (bs, c.advance size))

/-! ## Shared segment, peer, collaborators -/

/-- The part of `Hornet::SharedSegment` the bridge reads and writes: the action
code and the byte buffer (its length is the capacity). The mutex and the
condition variable are represented by the wait steps below. -/
structure Segment where
  act : Action
  bytes : List Nat
  deriving DecidableEq, Repr

/-- What the peer stores into the segment in one go: bytes from the start of
the buffer, then the action code. -/
structure PeerWrite where
  act : Action
  payload : List Nat
  deriving DecidableEq, Repr

/-- What happens during one `timed_wait` of the host: the peer's store into the
segment, if any, and the answer `Process::IsRunning` gives when it is polled
after this wait. -/
structure PeerStep where
  write : Option PeerWrite
  alive : Bool
  deriving DecidableEq, Repr

/-- Stores `payload` over the start of `old`, keeping the capacity. -/
def overlay (payload old : List Nat) : List Nat :=
  (payload ++ old.drop payload.length).take old.length

/-- The segment after the peer's store of one step. -/
def PeerStep.apply (step : PeerStep) (seg : Segment) : Segment :=
  match step.write with
  | none => seg
  | some w => { act := w.act, bytes := overlay w.payload seg.bytes }

/-- An `OCG_CardData` value as the bridge uses it: the object representation of
the record and the array its `setcodes` member points to. -/
structure OCG_CardData where
  repr : List Nat
  setcodes : List Nat
  deriving DecidableEq, Repr

/-- The host-side collaborators, addressed by the reference read from the
buffer, and the size of the `OCG_CardData` record (its declaration is not part
of the sources). -/
structure Collaborators where
  DataFromCode : Nat → Nat → OCG_CardData
  ScriptFromFilePath : Nat → List Nat → List Nat
  sizeofCardData : Nat

/-- Observable effects of the bridge, in program order. -/
inductive Event
  | notify (act : Action)
  | DataFromCode (supplier code : Nat)
  | ScriptFromFilePath (supplier : Nat) (name : List Nat)
  | Log (logger : Nat) (type : Int) (text : List Nat)
  | DataUsageDone (supplier : Nat) (data : List Nat)
  | shmRemove (name : String)
  | shmCreate (name : String)
  | Launch (shmName : String)
  | CleanUp (proc : Nat)
  | finalize
  deriving DecidableEq, Repr

/-- The exceptions the bridge throws. -/
inductive Exception
  | core (what : String)
  | runtime_error (what : String)
  deriving DecidableEq, Repr

/-- The members of `HornetWrapper` together with what is observed of its
environment: the names present in the shared-memory namespace and the trace of
effects. -/
structure Bridge where
  shmName : String
  hss : Segment
  proc : Nat
  names : List String
  trace : List Event
  deriving DecidableEq, Repr

/-- How a call ends: it returns, it throws, it is still inside the timed wait
when the script of the peer ends, or it has left the buffer. The remaining
script is what the peer does after the call. -/
inductive Outcome (α : Type)
  | returned (value : α) (b : Bridge) (rest : List PeerStep)
  | threw (e : Exception) (b : Bridge) (rest : List PeerStep)
  | waiting (b : Bridge)
  | undefined
  deriving DecidableEq, Repr

/-- Continues a call that returned. -/
def Outcome.andThen {α β : Type} (o : Outcome α)
    (k : α → Bridge → List PeerStep → Outcome β) : Outcome β :=
  match o with
  | .returned v b rest => k v b rest
  | .threw e b rest => .threw e b rest
  | .waiting b => .waiting b
  | .undefined => .undefined

/-! ## The wait loop -/

/-- How the loop around `timed_wait` ends. -/
inductive WaitResult
  | woke (seg : Segment) (rest : List PeerStep)
  | hung (seg : Segment) (rest : List PeerStep)
  | waiting (seg : Segment)
  deriving DecidableEq, Repr

/-- The loop of `NotifyAndWait`:
`while(!hss->cv.timed_wait(lock, NowPlusOffset(), [&](){return hss->act != act;}))`
`{ if(Process::IsRunning(proc)) continue; throw Core::Exception("Hornet hanged!"); }`.
Each `timed_wait` takes one step of the script and yields the predicate on the
segment as the peer left it. -/
def waitLoop (act : Action) (seg : Segment) : List PeerStep → WaitResult
  | [] => .waiting seg
  | step :: rest =>
    if (step.apply seg).act ≠ act then .woke (step.apply seg) rest
    else if step.alive then waitLoop act (step.apply seg) rest
    else .hung (step.apply seg) rest

/-- A timed wait that expires, for a segment whose action code is the posted
code `act` (as it is at every turn of the loop): the peer stores nothing during
the step, or stores `act` again, so the predicate `hss->act != act` is false. -/
def PeerStep.expires (act : Action) (step : PeerStep) : Bool :=
  match step.write with
  | none => true
  | some w => decide (w.act = act)

/-- The step of a peer that does nothing while its process keeps running. -/
def idleStep : PeerStep := { write := none, alive := true }

/-! ## Callback service -/

/-- The loop `for(uint16_t* wptr2 = data.setcodes; *wptr2 != 0U; wptr2++)`
`Write<uint16_t>(wptr, *wptr2);` over the array `setcodes` points to. Running
off the array before a zero is found is undefined. -/
def writeSetcodes : List Nat → Cursor → Option Cursor
  | [], _ => none
  | x :: xs, c => if x ≠ 0 then (Write 2 x c).bind (writeSetcodes xs) else some c

/-- What the `switch(hss->act)` of `NotifyAndWait` does before it posts
`CB_DONE`. -/
inductive Serviced
  | ignored
  | reply (b : Bridge)
  | fault
  deriving DecidableEq, Repr

/-- Turns the result of a callback body into a `Serviced`. -/
def Serviced.ofOption : Option Bridge → Serviced
  | some b => .reply b
  | none => .fault

/-- The `switch(hss->act)` of `NotifyAndWait`, each callback case up to its
call `NotifyAndWait(Hornet::Action::CB_DONE)`. -/
def serviceCallback (env : Collaborators) (b : Bridge) : Serviced :=
  match b.hss.act with
  | .CB_DATA_READER => Serviced.ofOption do
      let (supplier, rptr) ← Read 8 ⟨b.hss.bytes, 0⟩
      let (code, _) ← Read 4 rptr
      let data := env.DataFromCode supplier code
      let wptr ← WriteRecord data.repr ⟨b.hss.bytes, 0⟩
      let wptr ← writeSetcodes data.setcodes wptr
      let wptr ← Write 2 0 wptr
      pure { b with hss := { b.hss with bytes := wptr.bytes },
                    trace := b.trace ++ [Event.DataFromCode supplier code] }
  | .CB_SCRIPT_READER => Serviced.ofOption do
      let (supplier, rptr) ← Read 8 ⟨b.hss.bytes, 0⟩
      let (nameSz, rptr) ← Read 8 rptr
      let nameSv ← memcpyFrom nameSz rptr
      let script := env.ScriptFromFilePath supplier nameSv
      let wptr ← Write 8 script.length ⟨b.hss.bytes, 0⟩
      let wptr ← if script ≠ [] then memcpyTo script wptr else some wptr
      pure { b with hss := { b.hss with bytes := wptr.bytes },
                    trace := b.trace ++ [Event.ScriptFromFilePath supplier nameSv] }
  | .CB_LOG_HANDLER => Serviced.ofOption do
      let (logger, rptr) ← Read 8 ⟨b.hss.bytes, 0⟩
      let (type, rptr) ← Read 4 rptr
      let (strSz, rptr) ← Read 8 rptr
      let strSv ← memcpyFrom strSz rptr
      pure (if logger ≠ 0 then
              { b with trace := b.trace ++ [Event.Log logger (toInt32 type) strSv] }
            else b)
  | .CB_DATA_READER_DONE => Serviced.ofOption do
      let (supplier, rptr) ← Read 8 ⟨b.hss.bytes, 0⟩
      let (data, _) ← ReadRecord env.sizeofCardData rptr
      pure { b with trace := b.trace ++ [Event.DataUsageDone supplier data] }
  | .NO_WORK
  | .HEARTBEAT
  | .EXIT
  | .OCG_GET_VERSION
  | .OCG_CREATE_DUEL
  | .OCG_DESTROY_DUEL
  | .OCG_DUEL_NEW_CARD
  | .OCG_START_DUEL
  | .OCG_DUEL_PROCESS
  | .OCG_DUEL_GET_MESSAGE
  | .OCG_DUEL_SET_RESPONSE
  | .OCG_LOAD_SCRIPT
  | .OCG_DUEL_QUERY_COUNT
  | .OCG_DUEL_QUERY
  | .OCG_DUEL_QUERY_LOCATION
  | .OCG_DUEL_QUERY_FIELD
  | .CB_DONE => .ignored

/-! ## `NotifyAndWait` -/

/-- The statements `hss->act = act; hss->cv.notify_one();`. -/
def post (act : Action) (b : Bridge) : Bridge :=
  { b with hss := { b.hss with act := act }, trace := b.trace ++ [Event.notify act] }

/-- The body of `NotifyAndWait(act)` from the wait loop on, over the script of
the peer. The recursive call of the source, `NotifyAndWait(CB_DONE)`, is the
call on `post .CB_DONE` with the rest of the script. -/
def awaitAndDispatch (env : Collaborators) (act : Action) (b : Bridge) :
    List PeerStep → Outcome Unit
  | [] => .waiting b
  | step :: rest =>
    let b1 : Bridge := { b with hss := step.apply b.hss }
    if b1.hss.act ≠ act then
      if b1.hss.act = .NO_WORK then .returned () b1 rest
      else
        match serviceCallback env b1 with
        | .ignored => .returned () b1 rest
        | .fault => .undefined
        | .reply b2 => awaitAndDispatch env .CB_DONE (post .CB_DONE b2) rest
    else if step.alive then awaitAndDispatch env act b1 rest
    else .threw (.core "Hornet hanged!") b1 rest

/-- `HornetWrapper::NotifyAndWait(Hornet::Action act)`. -/
def NotifyAndWait (env : Collaborators) (act : Action) (b : Bridge)
    (script : List PeerStep) : Outcome Unit :=
  awaitAndDispatch env act (post act b) script

/-! ## Public operations -/

/-- The bridge with the buffer as a write cursor left it. -/
def Bridge.withBytes (b : Bridge) (bytes : List Nat) : Bridge :=
  { b with hss := { b.hss with bytes := bytes } }

/-- `HornetWrapper::CreateDuel`. The `OCG_DuelOptions` record built from `opts`
is given by its object representation; `OCG_DUEL_CREATION_SUCCESS`, declared
outside the sources, is a parameter. -/
def CreateDuel (env : Collaborators) (OCG_DUEL_CREATION_SUCCESS : Int) (opts : List Nat)
    (b : Bridge) (script : List PeerStep) : Outcome Nat :=
  match WriteRecord opts ⟨b.hss.bytes, 0⟩ with
  | none => .undefined
  | some wptr =>
    (NotifyAndWait env .OCG_CREATE_DUEL (b.withBytes wptr.bytes) script).andThen
      fun _ b rest =>
        match Read 4 ⟨b.hss.bytes, 0⟩ with
        | none => .undefined
        | some (status, rptr) =>
          if toInt32 status ≠ OCG_DUEL_CREATION_SUCCESS then
            .threw (.core "OCG_CreateDuel failed!") b rest
          else
            match Read 8 rptr with
            | none => .undefined
            | some (duel, _) => .returned duel b rest

/-- `HornetWrapper::Process`. -/
def Process (env : Collaborators) (duel : Nat) (b : Bridge) (script : List PeerStep) :
    Outcome Int :=
  match Write 8 duel ⟨b.hss.bytes, 0⟩ with
  | none => .undefined
  | some wptr =>
    (NotifyAndWait env .OCG_DUEL_PROCESS (b.withBytes wptr.bytes) script).andThen
      fun _ b rest =>
        match Read 4 ⟨b.hss.bytes, 0⟩ with
        | none => .undefined
        | some (status, _) => .returned (toInt32 status) b rest

/-- `HornetWrapper::GetMessages`. -/
def GetMessages (env : Collaborators) (duel : Nat) (b : Bridge) (script : List PeerStep) :
    Outcome (List Nat) :=
  match Write 8 duel ⟨b.hss.bytes, 0⟩ with
  | none => .undefined
  | some wptr =>
    (NotifyAndWait env .OCG_DUEL_GET_MESSAGE (b.withBytes wptr.bytes) script).andThen
      fun _ b rest =>
        match (Read 4 ⟨b.hss.bytes, 0⟩).bind (fun (size, rptr) => memcpyFrom size rptr) with
        | none => .undefined
        | some buffer => .returned buffer b rest

/-- The bytes `HornetWrapper::LoadScript` stores before it posts
`OCG_LOAD_SCRIPT`. -/
def LoadScript.request (duel : Nat) (name str : List Nat) (bytes : List Nat) :
    Option Cursor := do
  let wptr ← Write 8 duel ⟨bytes, 0⟩
  let wptr ← Write 8 name.length wptr
  let wptr ← memcpyTo name wptr
  let wptr := wptr.advance name.length
  let wptr ← Write 8 str.length wptr
  memcpyTo str wptr

/-- `HornetWrapper::LoadScript`. -/
def LoadScript (env : Collaborators) (duel : Nat) (name str : List Nat) (b : Bridge)
    (script : List PeerStep) : Outcome Int :=
  match LoadScript.request duel name str b.hss.bytes with
  | none => .undefined
  | some wptr =>
    (NotifyAndWait env .OCG_LOAD_SCRIPT (b.withBytes wptr.bytes) script).andThen
      fun _ b rest =>
        match Read 4 ⟨b.hss.bytes, 0⟩ with
        | none => .undefined
        | some (status, _) => .returned (toInt32 status) b rest

/-- `HornetWrapper::Query`. The `OCG_QueryInfo` record is given by its object
representation. -/
def Query (env : Collaborators) (duel : Nat) (info : List Nat) (b : Bridge)
    (script : List PeerStep) : Outcome (List Nat) :=
  match (Write 8 duel ⟨b.hss.bytes, 0⟩).bind (WriteRecord info) with
  | none => .undefined
  | some wptr =>
    (NotifyAndWait env .OCG_DUEL_QUERY (b.withBytes wptr.bytes) script).andThen
      fun _ b rest =>
        match (Read 4 ⟨b.hss.bytes, 0⟩).bind (fun (size, rptr) => memcpyFrom size rptr) with
        | none => .undefined
        | some buffer => .returned buffer b rest

/-- `HornetWrapper::QueryLocation`. -/
def QueryLocation (env : Collaborators) (duel : Nat) (info : List Nat) (b : Bridge)
    (script : List PeerStep) : Outcome (List Nat) :=
  match (Write 8 duel ⟨b.hss.bytes, 0⟩).bind (WriteRecord info) with
  | none => .undefined
  | some wptr =>
    (NotifyAndWait env .OCG_DUEL_QUERY_LOCATION (b.withBytes wptr.bytes) script).andThen
      fun _ b rest =>
        match (Read 4 ⟨b.hss.bytes, 0⟩).bind (fun (size, rptr) => memcpyFrom size rptr) with
        | none => .undefined
        | some buffer => .returned buffer b rest

/-- `HornetWrapper::QueryField`. -/
def QueryField (env : Collaborators) (duel : Nat) (b : Bridge) (script : List PeerStep) :
    Outcome (List Nat) :=
  match Write 8 duel ⟨b.hss.bytes, 0⟩ with
  | none => .undefined
  | some wptr =>
    (NotifyAndWait env .OCG_DUEL_QUERY_FIELD (b.withBytes wptr.bytes) script).andThen
      fun _ b rest =>
        match (Read 4 ⟨b.hss.bytes, 0⟩).bind (fun (size, rptr) => memcpyFrom size rptr) with
        | none => .undefined
        | some buffer => .returned buffer b rest

/-! ## Construction and destruction -/

/-- `HornetWrapper::DestroySharedSegment`: `hss->~SharedSegment();` then
`ipc::shared_memory_object::remove(shmName.data());`. -/
def DestroySharedSegment (b : Bridge) : Bridge :=
  { b with names := b.names.filter (fun n => n ≠ b.shmName),
           trace := b.trace ++ [Event.finalize, Event.shmRemove b.shmName] }

/-- `Process::CleanUp(proc)`. -/
def CleanUp (b : Bridge) : Bridge :=
  { b with trace := b.trace ++ [Event.CleanUp b.proc] }

/-- The member initialisers of the constructor and its statements up to and
including the call of `Process::Launch`: `MakeShm` removes the name and creates
the object, the placement `new` constructs the segment. `seg0` is the segment as
the default constructor of `Hornet::SharedSegment` (declared outside the sources)
leaves it. -/
def initSegment (this : Nat) (seg0 : Segment) (names : List String) : Bridge :=
  let shmName := MakeHornetName this
  { shmName := shmName,
    hss := seg0,
    proc := 0,
    names := shmName :: names.filter (fun n => n ≠ shmName),
    trace := [Event.shmRemove shmName, Event.shmCreate shmName, Event.Launch shmName] }

/-- `HornetWrapper::HornetWrapper`. `launch` is what `Process::Launch` returns,
`names` the shared-memory names present beforehand, `seg0` the freshly
constructed segment. -/
def HornetWrapper_ctor (env : Collaborators) (this : Nat) (seg0 : Segment)
    (names : List String) (launch : Nat × Bool) (script : List PeerStep) : Outcome Unit :=
  let b := initSegment this seg0 names
  if !launch.2 then
    .threw (.runtime_error "Unable to launch child") (DestroySharedSegment b) script
  else
    match NotifyAndWait env .HEARTBEAT { b with proc := launch.1 } script with
    | .threw (.core _) b rest =>
      .threw (.runtime_error "Heartbeat failed") (DestroySharedSegment (CleanUp b)) rest
    | o => o

/-- `HornetWrapper::~HornetWrapper`. No step of the peer's script is taken. -/
def HornetWrapper_dtor (b : Bridge) (script : List PeerStep) : Outcome Unit :=
  .returned () (DestroySharedSegment (CleanUp (post .EXIT b))) script

/-! ## Reference readers (the peer's side of the wire format) -/

/-- The reading of a load-script request in the words of the wire format: a
handle, a `size_t` length followed by that many bytes, a `size_t` length
followed by that many bytes. -/
def decodeLoadScript (bytes : List Nat) : Option (Nat × List Nat × List Nat) := do
  let (duel, rptr) ← Read 8 ⟨bytes, 0⟩
  let (n, rptr) ← Read 8 rptr
  let name ← memcpyFrom n rptr
  let rptr := rptr.advance n
  let (m, rptr) ← Read 8 rptr
  let str ← memcpyFrom m rptr
  pure (duel, name, str)

/-- The reply to a data-reader callback in the words of the wire format: the
descriptor, then the non-zero trailing values as 16-bit fields in their order,
then one 16-bit zero. -/
def dataReaderReply (d : OCG_CardData) (nonzero : List Nat) : List Nat :=
  d.repr ++ nonzero.flatMap (encodeLE 2) ++ encodeLE 2 0

/-- The reading of a zero-terminated list of 16-bit values starting at byte
offset `pos`: the entries up to and including the first zero. -/
def decodeSetcodes : Nat → List Nat → Nat → Option (List Nat)
  | 0, _, _ => none
  | fuel + 1, bytes, pos =>
    match Read 2 ⟨bytes, pos⟩ with
    | none => none
    | some (v, _) =>
      if v = 0 then some [0] else (decodeSetcodes fuel bytes (pos + 2)).map (fun l => v :: l)

/-! ## The operations that return a size-prefixed buffer, taken together -/

/-- Selects one of `GetMessages`, `Query`, `QueryLocation`, `QueryField`. -/
inductive BufferOp
  | getMessages
  | query
  | queryLocation
  | queryField
  deriving DecidableEq, Repr

/-- The selected operation. `info` is used by `Query` and `QueryLocation`. -/
def BufferOp.run (op : BufferOp) (env : Collaborators) (duel : Nat) (info : List Nat)
    (b : Bridge) (script : List PeerStep) : Outcome (List Nat) :=
  match op with
  | .getMessages => GetMessages env duel b script
  | .query => Query env duel info b script
  | .queryLocation => QueryLocation env duel info b script
  | .queryField => QueryField env duel b script

/-- The action code the selected operation posts. -/
def BufferOp.action : BufferOp → Action
  | .getMessages => .OCG_DUEL_GET_MESSAGE
  | .query => .OCG_DUEL_QUERY
  | .queryLocation => .OCG_DUEL_QUERY_LOCATION
  | .queryField => .OCG_DUEL_QUERY_FIELD

/-- The request the selected operation stores before it posts. -/
def BufferOp.request (op : BufferOp) (duel : Nat) (info bytes : List Nat) : Option Cursor :=
  match op with
  | .getMessages => Write 8 duel ⟨bytes, 0⟩
  | .query => (Write 8 duel ⟨bytes, 0⟩).bind (WriteRecord info)
  | .queryLocation => (Write 8 duel ⟨bytes, 0⟩).bind (WriteRecord info)
  | .queryField => Write 8 duel ⟨bytes, 0⟩

/-! ## Sample collaborators and bridge -/

/-- A sample set of collaborators: every card has a four-byte record whose first
byte is the low byte of the code and the set codes `7, 8`; scripts are their own
path; the card record has four bytes. -/
def sampleEnv : Collaborators :=
  { DataFromCode := fun _ code => { repr := [code % 256, 1, 2, 3], setcodes := [7, 8, 0] },
    ScriptFromFilePath := fun _ path => path,
    sizeofCardData := 4 }

/-- A sample bridge at rest: a 32-byte buffer of zeros, action code `NO_WORK`. -/
def sampleBridge : Bridge :=
  { shmName := "Hornet0x1000",
    hss := { act := .NO_WORK, bytes := List.replicate 32 0 },
    proc := 1,
    names := ["Hornet0x1000"],
    trace := [] }

/-! ## Codec: facts -/

theorem encodeLE_length (w v : Nat) : (encodeLE w v).length = w := by
  induction w generalizing v with
  | zero => rfl
  | succ w ih => simp [encodeLE, ih]

theorem decodeLE_encodeLE (w v : Nat) : decodeLE (encodeLE w v) = v % 256 ^ w := by
  induction w generalizing v with
  | zero => simp [encodeLE, decodeLE, Nat.mod_one]
  | succ w ih =>
    simp only [encodeLE, decodeLE, ih, Nat.mod_mod]
    rw [pow_succ, Nat.mul_comm (256 ^ w) 256, Nat.mod_mul]

theorem decodeLE_encodeLE_of_lt (w v : Nat) (h : v < 256 ^ w) :
    decodeLE (encodeLE w v) = v := by
  rw [decodeLE_encodeLE, Nat.mod_eq_of_lt h]

theorem memcpyTo_at (pre src tail : List Nat) (pos : Nat) (hpos : pos = pre.length)
    (h : src.length ≤ tail.length) :
    memcpyTo src ⟨pre ++ tail, pos⟩ = some ⟨pre ++ src ++ tail.drop src.length, pos⟩ := by
  subst hpos
  unfold memcpyTo
  simp only [List.length_append]
  rw [if_pos (by omega)]
  simp [List.take_append_eq_append_take, List.drop_append_eq_append_drop, List.drop_of_length_le]

theorem Write_at (w v : Nat) (pre tail : List Nat) (pos : Nat) (hpos : pos = pre.length)
    (h : w ≤ tail.length) :
    Write w v ⟨pre ++ tail, pos⟩ = some ⟨pre ++ encodeLE w v ++ tail.drop w, pos + w⟩ := by
  unfold Write
  rw [memcpyTo_at pre _ tail pos hpos (by rw [encodeLE_length]; exact h), encodeLE_length]
  rfl

theorem WriteRecord_at (repr pre tail : List Nat) (pos : Nat) (hpos : pos = pre.length)
    (h : repr.length ≤ tail.length) :
    WriteRecord repr ⟨pre ++ tail, pos⟩
      = some ⟨pre ++ repr ++ tail.drop repr.length, pos + repr.length⟩ := by
  unfold WriteRecord
  rw [memcpyTo_at pre _ tail pos hpos h]
  rfl

theorem memcpyFrom_at (pre mid tail : List Nat) (pos n : Nat) (hpos : pos = pre.length)
    (hn : n = mid.length) :
    memcpyFrom n ⟨pre ++ mid ++ tail, pos⟩ = some mid := by
  subst hpos hn
  unfold memcpyFrom
  simp only [List.length_append]
  rw [if_pos (by omega)]
  simp [List.append_assoc]

theorem Read_at (w v : Nat) (pre tail : List Nat) (pos : Nat) (hpos : pos = pre.length) :
    Read w ⟨pre ++ encodeLE w v ++ tail, pos⟩
      = some (v % 256 ^ w, ⟨pre ++ encodeLE w v ++ tail, pos + w⟩) := by
  unfold Read
  rw [memcpyFrom_at pre (encodeLE w v) tail pos w hpos (encodeLE_length w v).symm,
    Option.map_some', decodeLE_encodeLE]
  rfl

theorem LoadScript_request_eq (duel : Nat) (name str bytes : List Nat)
    (hfit : 8 + (8 + name.length) + (8 + str.length) ≤ bytes.length) :
    LoadScript.request duel name str bytes
      = some ⟨encodeLE 8 duel ++ encodeLE 8 name.length ++ name ++ encodeLE 8 str.length ++ str
                ++ bytes.drop (8 + 8 + name.length + 8 + str.length),
              8 + 8 + name.length + 8⟩ := by
  unfold LoadScript.request
  have e1 := Write_at 8 duel [] bytes 0 rfl (by omega)
  simp only [List.nil_append] at e1
  have e2 := Write_at 8 name.length (encodeLE 8 duel) (bytes.drop 8) (0 + 8)
    (by rw [encodeLE_length]) (by rw [List.length_drop]; omega)
  have e3 := memcpyTo_at (encodeLE 8 duel ++ encodeLE 8 name.length) name
    ((bytes.drop 8).drop 8) (0 + 8 + 8)
    (by simp [encodeLE_length]) (by simp only [List.length_drop]; omega)
  have e4 := Write_at 8 str.length (encodeLE 8 duel ++ encodeLE 8 name.length ++ name)
    (((bytes.drop 8).drop 8).drop name.length) (0 + 8 + 8 + name.length)
    (by simp [encodeLE_length]; omega) (by simp only [List.length_drop]; omega)
  have e5 := memcpyTo_at
    (encodeLE 8 duel ++ encodeLE 8 name.length ++ name ++ encodeLE 8 str.length) str
    ((((bytes.drop 8).drop 8).drop name.length).drop 8) (0 + 8 + 8 + name.length + 8)
    (by simp [encodeLE_length]; omega) (by simp only [List.length_drop]; omega)
  simp only [Option.bind_eq_bind, e1, Option.some_bind, e2, e3, Cursor.advance, e4, e5]
  simp only [List.drop_drop, Nat.zero_add]

theorem decodeLoadScript_eq (duel : Nat) (name str tail : List Nat)
    (hduel : duel < 2 ^ 64) (hname : name.length < 2 ^ 64) (hstr : str.length < 2 ^ 64) :
    decodeLoadScript
        (encodeLE 8 duel ++ encodeLE 8 name.length ++ name ++ encodeLE 8 str.length ++ str ++ tail)
      = some (duel, name, str) := by
  unfold decodeLoadScript
  have e1 := Read_at 8 duel [] (encodeLE 8 name.length ++ name ++ encodeLE 8 str.length ++ str ++ tail) 0 rfl
  have e2 := Read_at 8 name.length (encodeLE 8 duel) (name ++ encodeLE 8 str.length ++ str ++ tail)
    (0 + 8) (by rw [encodeLE_length])
  have e3 := memcpyFrom_at (encodeLE 8 duel ++ encodeLE 8 name.length) name
    (encodeLE 8 str.length ++ str ++ tail) (0 + 8 + 8) name.length
    (by simp [encodeLE_length]) rfl
  have e4 := Read_at 8 str.length (encodeLE 8 duel ++ encodeLE 8 name.length ++ name)
    (str ++ tail) (0 + 8 + 8 + name.length) (by simp [encodeLE_length]; omega)
  have e5 := memcpyFrom_at
    (encodeLE 8 duel ++ encodeLE 8 name.length ++ name ++ encodeLE 8 str.length) str tail
    (0 + 8 + 8 + name.length + 8) str.length (by simp [encodeLE_length]; omega) rfl
  have p : (256 : Nat) ^ 8 = 2 ^ 64 := by norm_num
  rw [p, Nat.mod_eq_of_lt hduel] at e1
  rw [p, Nat.mod_eq_of_lt hname] at e2
  rw [p, Nat.mod_eq_of_lt hstr] at e4
  simp only [List.nil_append, List.append_assoc] at e1 e2 e3 e4 e5 ⊢
  simp only [Option.bind_eq_bind, e1, Option.some_bind, e2, e3, Cursor.advance, e4, e5]
  rfl

/-! ## Segment naming: facts -/

theorem hexValue_hexDigitUpper (d : Nat) (h : d < 16) : hexValue (hexDigitUpper d) = d := by
  interval_cases d <;> rfl

theorem parseHexUpper_digits (l : List Nat) (h : ∀ d ∈ l, d < 16) :
    parseHexUpper (l.reverse.map hexDigitUpper) = Nat.ofDigits 16 l := by
  induction l with
  | nil => rfl
  | cons d l ih =>
    have hd : d < 16 := h d (List.mem_cons_self _ _)
    have hl : ∀ x ∈ l, x < 16 := fun x hx => h x (List.mem_cons_of_mem _ hx)
    have ih1 := ih hl
    unfold parseHexUpper at ih1 ⊢
    rw [List.reverse_cons, List.map_append, List.foldl_append, ih1, Nat.ofDigits_cons]
    simp [hexValue_hexDigitUpper d hd]
    omega

theorem parseHexUpper_formatHexUpper (n : Nat) : parseHexUpper (formatHexUpper n) = n := by
  unfold formatHexUpper
  split
  · next h => subst h; rfl
  · rw [parseHexUpper_digits _ (fun d hd => Nat.digits_lt_base (by norm_num) hd),
      Nat.ofDigits_digits]

theorem formatHexUpper_length (n : Nat) (h : n < 2 ^ 64) : (formatHexUpper n).length ≤ 16 := by
  unfold formatHexUpper
  split
  · simp
  · next hn =>
    simp only [List.length_map, List.length_reverse]
    have h1 := Nat.base_pow_length_digits_le 16 n (by norm_num) hn
    have h2 : 16 ^ (Nat.digits 16 n).length < 16 ^ 17 := by
      calc 16 ^ (Nat.digits 16 n).length ≤ 16 * n := h1
        _ < 16 * 2 ^ 64 := by omega
        _ = 16 ^ 17 := by norm_num
    have h3 := (Nat.pow_lt_pow_iff_right (by norm_num : 1 < 16)).mp h2
    omega

theorem MakeHornetName_data (a : Nat) (h : a < 2 ^ 64) :
    (MakeHornetName a).data = "Hornet0x".toList ++ formatHexUpper a := by
  have hl := formatHexUpper_length a h
  unfold MakeHornetName snprintf
  rw [Nat.mod_eq_of_lt h]
  apply List.take_of_length_le
  simp only [List.length_append]
  have : "Hornet0x".toList.length = 8 := by decide
  omega

/-- C10: for 64-bit addresses, `MakeHornetName` is `"Hornet0x"` followed by the
complete upper-case hexadecimal numeral of the address (reading the numeral back
gives the address), it has at most 24 characters, so the 25-byte buffer of
`snprintf` holds all of it, and distinct addresses get distinct names. -/
theorem MakeHornetName_complete_and_unique (a b : Nat) (ha : a < 2 ^ 64) (hb : b < 2 ^ 64) :
    MakeHornetName a = "Hornet0x" ++ String.mk (formatHexUpper a)
    ∧ parseHexUpper (formatHexUpper a) = a
    ∧ (MakeHornetName a).length ≤ 24
    ∧ (a ≠ b → MakeHornetName a ≠ MakeHornetName b) := by
  have hda := MakeHornetName_data a ha
  have hdb := MakeHornetName_data b hb
  refine ⟨?_, parseHexUpper_formatHexUpper a, ?_, ?_⟩
  · apply String.ext
    rw [hda]
    rfl
  · have hl := formatHexUpper_length a ha
    show (MakeHornetName a).data.length ≤ 24
    rw [hda, List.length_append]
    have : "Hornet0x".toList.length = 8 := by decide
    omega
  · intro hab heq
    apply hab
    have h1 : (MakeHornetName a).data = (MakeHornetName b).data := by rw [heq]
    rw [hda, hdb] at h1
    have h2 := List.append_cancel_left h1
    rw [← parseHexUpper_formatHexUpper a, ← parseHexUpper_formatHexUpper b, h2]

theorem MakeHornetName_complete_and_unique_witness :
    MakeHornetName 255 = "Hornet0x" ++ String.mk (formatHexUpper 255)
    ∧ parseHexUpper (formatHexUpper 255) = 255
    ∧ (MakeHornetName 255).length ≤ 24
    ∧ (255 ≠ 4096 → MakeHornetName 255 ≠ MakeHornetName 4096) :=
  MakeHornetName_complete_and_unique 255 4096 (by norm_num) (by norm_num)

/-! ## Request and response layouts -/

theorem memcpyFrom_eq (n pos : Nat) (bytes : List Nat) (h : pos + n ≤ bytes.length) :
    memcpyFrom n ⟨bytes, pos⟩ = some ((bytes.drop pos).take n) := by
  unfold memcpyFrom
  rw [if_pos h]

theorem Read_eq (w pos : Nat) (bytes : List Nat) (h : pos + w ≤ bytes.length) :
    Read w ⟨bytes, pos⟩ = some (decodeLE ((bytes.drop pos).take w), ⟨bytes, pos + w⟩) := by
  unfold Read
  rw [memcpyFrom_eq w pos bytes h]
  rfl

theorem memcpyTo_length (src : List Nat) (c c' : Cursor) (h : memcpyTo src c = some c') :
    c'.bytes.length = c.bytes.length := by
  unfold memcpyTo at h
  split at h
  · next hle =>
    cases h
    simp only [List.length_append, List.length_take, List.length_drop]
    omega
  · cases h

/-- C6: when the handle, the name and the script text fit (values in the range
of their types, encoding within the buffer capacity), the bytes `LoadScript` has
stored when it posts `OCG_LOAD_SCRIPT` are, from the start of the buffer and with
the rest of the buffer untouched, the handle, the 8-byte length of the name, the
name, the 8-byte length of the text and the text, back to back; reading them in
that order gives back the handle, the name and the text. -/
theorem LoadScript_request_roundtrip (env : Collaborators) (duel : Nat) (name str : List Nat)
    (b : Bridge)
    (hduel : duel < 2 ^ 64) (hname : name.length < 2 ^ 64) (hstr : str.length < 2 ^ 64)
    (hfit : 8 + (8 + name.length) + (8 + str.length) ≤ b.hss.bytes.length) :
    ∃ wptr : Cursor,
      LoadScript.request duel name str b.hss.bytes = some wptr
      ∧ LoadScript env duel name str b [] = .waiting (post .OCG_LOAD_SCRIPT (b.withBytes wptr.bytes))
      ∧ wptr.bytes = encodeLE 8 duel ++ encodeLE 8 name.length ++ name
                      ++ encodeLE 8 str.length ++ str
                      ++ b.hss.bytes.drop (8 + 8 + name.length + 8 + str.length)
      ∧ wptr.bytes.length = b.hss.bytes.length
      ∧ decodeLoadScript wptr.bytes = some (duel, name, str) := by
  have hreq := LoadScript_request_eq duel name str b.hss.bytes hfit
  refine ⟨_, hreq, ?_, rfl, ?_, decodeLoadScript_eq duel name str _ hduel hname hstr⟩
  · simp only [LoadScript, hreq]
    rfl
  · simp only [List.length_append, encodeLE_length, List.length_drop]
    omega

theorem LoadScript_request_roundtrip_witness :
    ∃ wptr : Cursor,
      LoadScript.request 5 [104, 105] [1, 2, 3] (List.replicate 32 0) = some wptr
      ∧ LoadScript ⟨fun _ _ => ⟨[], [0]⟩, fun _ n => n, 0⟩ 5 [104, 105] [1, 2, 3]
          ⟨"Hornet0x1", ⟨.NO_WORK, List.replicate 32 0⟩, 1, [], []⟩ []
          = .waiting (post .OCG_LOAD_SCRIPT
              (Bridge.withBytes ⟨"Hornet0x1", ⟨.NO_WORK, List.replicate 32 0⟩, 1, [], []⟩ wptr.bytes))
      ∧ wptr.bytes = encodeLE 8 5 ++ encodeLE 8 2 ++ [104, 105] ++ encodeLE 8 3 ++ [1, 2, 3]
                      ++ (List.replicate 32 0).drop (8 + 8 + 2 + 8 + 3)
      ∧ wptr.bytes.length = 32
      ∧ decodeLoadScript wptr.bytes = some (5, [104, 105], [1, 2, 3]) :=
  LoadScript_request_roundtrip ⟨fun _ _ => ⟨[], [0]⟩, fun _ n => n, 0⟩ 5 [104, 105] [1, 2, 3]
    ⟨"Hornet0x1", ⟨.NO_WORK, List.replicate 32 0⟩, 1, [], []⟩
    (by norm_num) (by norm_num) (by norm_num) (by decide)

/-- C7: when the request of `GetMessages`, `Query`, `QueryLocation` or
`QueryField` has been answered and the buffer starts with a `uint32` length `n`
with `n + 4` within the capacity, the operation returns the `n` bytes that follow
the 4-byte length field, a sequence of length exactly `n`; the result is the same
expression of the response for the four operations. -/
theorem sized_buffer_response (op : BufferOp) (env : Collaborators) (duel : Nat)
    (info : List Nat) (b b' : Bridge) (script rest : List PeerStep) (wptr : Cursor)
    (hreq : op.request duel info b.hss.bytes = some wptr)
    (hwait : NotifyAndWait env op.action (b.withBytes wptr.bytes) script = .returned () b' rest)
    (hfit : decodeLE (b'.hss.bytes.take 4) + 4 ≤ b'.hss.bytes.length) :
    op.run env duel info b script
        = .returned ((b'.hss.bytes.drop 4).take (decodeLE (b'.hss.bytes.take 4))) b' rest
    ∧ ((b'.hss.bytes.drop 4).take (decodeLE (b'.hss.bytes.take 4))).length
        = decodeLE (b'.hss.bytes.take 4) := by
  have hr : Read 4 ⟨b'.hss.bytes, 0⟩ = some (decodeLE (b'.hss.bytes.take 4), ⟨b'.hss.bytes, 4⟩) := by
    rw [Read_eq 4 0 b'.hss.bytes (by omega)]
    simp
  have hm := memcpyFrom_eq (decodeLE (b'.hss.bytes.take 4)) 4 b'.hss.bytes (by omega)
  constructor
  · cases op <;>
      simp only [BufferOp.request, BufferOp.action] at hreq hwait <;>
      simp only [BufferOp.run, GetMessages, Query, QueryLocation, QueryField, hreq, hwait,
        Outcome.andThen, hr, Option.some_bind, hm]
  · rw [List.length_take, List.length_drop]
    omega

theorem sized_buffer_response_witness :
    BufferOp.run .query sampleEnv 5 [1, 2] sampleBridge
        [⟨some ⟨.NO_WORK, [2, 0, 0, 0, 9, 8]⟩, true⟩]
      = .returned
          ((([2, 0, 0, 0, 9, 8, 0, 0, 1, 2] ++ List.replicate 22 0).drop 4).take
            (decodeLE (([2, 0, 0, 0, 9, 8, 0, 0, 1, 2] ++ List.replicate 22 0).take 4)))
          { sampleBridge with
              hss := { act := .NO_WORK, bytes := [2, 0, 0, 0, 9, 8, 0, 0, 1, 2] ++ List.replicate 22 0 },
              trace := [Event.notify .OCG_DUEL_QUERY] }
          []
    ∧ ((([2, 0, 0, 0, 9, 8, 0, 0, 1, 2] ++ List.replicate 22 0).drop 4).take
          (decodeLE (([2, 0, 0, 0, 9, 8, 0, 0, 1, 2] ++ List.replicate 22 0).take 4))).length
        = decodeLE (([2, 0, 0, 0, 9, 8, 0, 0, 1, 2] ++ List.replicate 22 0).take 4) :=
  sized_buffer_response .query sampleEnv 5 [1, 2] sampleBridge
    { sampleBridge with
        hss := { act := .NO_WORK, bytes := [2, 0, 0, 0, 9, 8, 0, 0, 1, 2] ++ List.replicate 22 0 },
        trace := [Event.notify .OCG_DUEL_QUERY] }
    [⟨some ⟨.NO_WORK, [2, 0, 0, 0, 9, 8]⟩, true⟩] []
    ⟨encodeLE 8 5 ++ [1, 2] ++ List.replicate 22 0, 10⟩
    (by decide) (by decide) (by decide)

/-- C5: once the create-duel request has resolved to `NO_WORK` (buffer large
enough for the status and the handle), `CreateDuel` throws exactly when the
leading `int` differs from `OCG_DUEL_CREATION_SUCCESS`; on success it returns the
handle stored right after the status; on failure it throws the creation failure,
returns no handle, and leaves the segment as the peer left it, action code
`NO_WORK`. -/
theorem CreateDuel_status (env : Collaborators) (success : Int) (opts : List Nat)
    (b b' : Bridge) (script rest : List PeerStep) (wptr : Cursor)
    (hreq : WriteRecord opts ⟨b.hss.bytes, 0⟩ = some wptr)
    (hwait : NotifyAndWait env .OCG_CREATE_DUEL (b.withBytes wptr.bytes) script
              = .returned () b' rest)
    (hres : b'.hss.act = .NO_WORK)
    (hcap : 12 ≤ b'.hss.bytes.length) :
    ((∃ e b'' r, CreateDuel env success opts b script = .threw e b'' r)
        ↔ toInt32 (decodeLE (b'.hss.bytes.take 4)) ≠ success)
    ∧ (toInt32 (decodeLE (b'.hss.bytes.take 4)) = success →
        CreateDuel env success opts b script
          = .returned (decodeLE ((b'.hss.bytes.drop 4).take 8)) b' rest)
    ∧ (toInt32 (decodeLE (b'.hss.bytes.take 4)) ≠ success →
        CreateDuel env success opts b script = .threw (.core "OCG_CreateDuel failed!") b' rest
        ∧ (∀ duel b'' r, CreateDuel env success opts b script ≠ .returned duel b'' r)
        ∧ b'.hss.act = .NO_WORK) := by
  have hr : Read 4 ⟨b'.hss.bytes, 0⟩ = some (decodeLE (b'.hss.bytes.take 4), ⟨b'.hss.bytes, 4⟩) := by
    rw [Read_eq 4 0 b'.hss.bytes (by omega)]
    simp
  have hh := Read_eq 8 4 b'.hss.bytes (by omega)
  have hok : toInt32 (decodeLE (b'.hss.bytes.take 4)) = success →
      CreateDuel env success opts b script
        = .returned (decodeLE ((b'.hss.bytes.drop 4).take 8)) b' rest := by
    intro hs
    simp only [CreateDuel, hreq, hwait, Outcome.andThen, hr, hs, ne_eq, not_true_eq_false,
      if_false, hh]
  have hbad : toInt32 (decodeLE (b'.hss.bytes.take 4)) ≠ success →
      CreateDuel env success opts b script = .threw (.core "OCG_CreateDuel failed!") b' rest := by
    intro hs
    simp only [CreateDuel, hreq, hwait, Outcome.andThen, hr, ne_eq, hs, not_false_eq_true,
      if_true]
  refine ⟨⟨?_, fun hs => ⟨_, _, _, hbad hs⟩⟩, hok, fun hs => ⟨hbad hs, ?_, hres⟩⟩
  · rintro ⟨e, b'', r, hthrow⟩ hs
    rw [hok hs] at hthrow
    cases hthrow
  · intro duel b'' r hret
    rw [hbad hs] at hret
    cases hret

theorem CreateDuel_status_witness :
    ((∃ e b'' r, CreateDuel sampleEnv 0 [1, 2, 3] sampleBridge
          [⟨some ⟨.NO_WORK, [1, 0, 0, 0]⟩, true⟩] = .threw e b'' r)
        ↔ toInt32 (decodeLE (([1, 0, 0, 0] ++ List.replicate 28 0).take 4)) ≠ 0)
    ∧ (toInt32 (decodeLE (([1, 0, 0, 0] ++ List.replicate 28 0).take 4)) = 0 →
        CreateDuel sampleEnv 0 [1, 2, 3] sampleBridge [⟨some ⟨.NO_WORK, [1, 0, 0, 0]⟩, true⟩]
          = .returned (decodeLE ((([1, 0, 0, 0] ++ List.replicate 28 0).drop 4).take 8))
              { sampleBridge with
                  hss := { act := .NO_WORK, bytes := [1, 0, 0, 0] ++ List.replicate 28 0 },
                  trace := [Event.notify .OCG_CREATE_DUEL] } [])
    ∧ (toInt32 (decodeLE (([1, 0, 0, 0] ++ List.replicate 28 0).take 4)) ≠ 0 →
        CreateDuel sampleEnv 0 [1, 2, 3] sampleBridge [⟨some ⟨.NO_WORK, [1, 0, 0, 0]⟩, true⟩]
          = .threw (.core "OCG_CreateDuel failed!")
              { sampleBridge with
                  hss := { act := .NO_WORK, bytes := [1, 0, 0, 0] ++ List.replicate 28 0 },
                  trace := [Event.notify .OCG_CREATE_DUEL] } []
        ∧ (∀ duel b'' r, CreateDuel sampleEnv 0 [1, 2, 3] sampleBridge
              [⟨some ⟨.NO_WORK, [1, 0, 0, 0]⟩, true⟩] ≠ .returned duel b'' r)
        ∧ Action.NO_WORK = Action.NO_WORK) :=
  CreateDuel_status sampleEnv 0 [1, 2, 3] sampleBridge
    { sampleBridge with
        hss := { act := .NO_WORK, bytes := [1, 0, 0, 0] ++ List.replicate 28 0 },
        trace := [Event.notify .OCG_CREATE_DUEL] }
    [⟨some ⟨.NO_WORK, [1, 0, 0, 0]⟩, true⟩] []
    ⟨[1, 2, 3] ++ List.replicate 29 0, 3⟩
    (by decide) (by decide) rfl (by decide)

/-! ## The wait loop: facts -/

theorem apply_act_eq_iff (act : Action) (seg : Segment) (step : PeerStep) (h : seg.act = act) :
    (step.apply seg).act = act ↔ step.expires act = true := by
  unfold PeerStep.apply PeerStep.expires
  cases step.write with
  | none => simp [h]
  | some w => simp

theorem waitLoop_expired_alive (act : Action) (pre rest : List PeerStep) (seg : Segment)
    (hseg : seg.act = act) (hpre : ∀ s ∈ pre, s.expires act = true ∧ s.alive = true) :
    ∃ seg', seg'.act = act ∧ waitLoop act seg (pre ++ rest) = waitLoop act seg' rest := by
  induction pre generalizing seg with
  | nil => exact ⟨seg, hseg, rfl⟩
  | cons s pre ih =>
    have hs := hpre s (List.mem_cons_self _ _)
    have hact : (s.apply seg).act = act := (apply_act_eq_iff act seg s hseg).mpr hs.1
    obtain ⟨seg', h1, h2⟩ := ih (s.apply seg) hact
      (fun x hx => hpre x (List.mem_cons_of_mem _ hx))
    refine ⟨seg', h1, ?_⟩
    rw [List.cons_append, waitLoop]
    simp only [hact, ne_eq, not_true_eq_false, if_false, hs.2, if_true]
    exact h2

theorem waitLoop_hung_prefix (act : Action) (script : List PeerStep) (seg : Segment)
    (hseg : seg.act = act) (seg' : Segment) (rest : List PeerStep)
    (h : waitLoop act seg script = .hung seg' rest) :
    ∃ pre step, script = pre ++ step :: rest
      ∧ (∀ s ∈ pre, s.expires act = true ∧ s.alive = true)
      ∧ step.expires act = true ∧ step.alive = false := by
  induction script generalizing seg with
  | nil => simp [waitLoop] at h
  | cons s tl ih =>
    rw [waitLoop] at h
    by_cases hact : (s.apply seg).act = act
    · have hexp := (apply_act_eq_iff act seg s hseg).mp hact
      simp only [hact, ne_eq, not_true_eq_false, if_false] at h
      by_cases hal : s.alive = true
      · simp only [hal, if_true] at h
        obtain ⟨pre, step, h1, h2, h3⟩ := ih (s.apply seg) hact h
        refine ⟨s :: pre, step, by rw [h1]; rfl, ?_, h3⟩
        intro x hx
        rcases List.mem_cons.mp hx with rfl | hx
        · exact ⟨hexp, hal⟩
        · exact h2 x hx
      · simp only [hal, if_false] at h
        cases h
        exact ⟨[], s, rfl, by simp, hexp, by simpa using hal⟩
    · simp [hact] at h

/-- The body of `NotifyAndWait` in the shape of the source: the wait loop, the
test for `NO_WORK`, the `switch` and its recursive call. -/
theorem awaitAndDispatch_eq_waitLoop (env : Collaborators) (act : Action) (b : Bridge)
    (script : List PeerStep) :
    awaitAndDispatch env act b script =
      match waitLoop act b.hss script with
      | .waiting seg => .waiting { b with hss := seg }
      | .hung seg rest => .threw (.core "Hornet hanged!") { b with hss := seg } rest
      | .woke seg rest =>
        if seg.act = .NO_WORK then .returned () { b with hss := seg } rest
        else
          match serviceCallback env { b with hss := seg } with
          | .ignored => .returned () { b with hss := seg } rest
          | .fault => .undefined
          | .reply b2 => NotifyAndWait env .CB_DONE b2 rest := by
  induction script generalizing b with
  | nil => rfl
  | cons s tl ih =>
    rw [awaitAndDispatch, waitLoop]
    by_cases hact : (s.apply b.hss).act = act
    · by_cases hal : s.alive = true
      · simp only [hact, ne_eq, not_true_eq_false, if_false, hal, if_true]
        rw [ih]
      · have hal' : s.alive = false := by simpa using hal
        simp only [hact, ne_eq, not_true_eq_false, if_false, hal']
        rfl
    · simp only [hact, ne_eq, not_false_eq_true, if_true]
      rfl

theorem waitLoop_idle (act : Action) (seg : Segment) (hseg : seg.act = act) (n : Nat) :
    waitLoop act seg (List.replicate n idleStep) = .waiting seg := by
  induction n with
  | zero => rfl
  | succ n ih =>
    rw [List.replicate_succ, waitLoop]
    simp only [idleStep, PeerStep.apply, hseg, ne_eq, not_true_eq_false, if_false, if_true]
    exact ih

/-- C2: the wait loop of `NotifyAndWait(act)` ends with the hung-peer exception
exactly when, after a run of timed waits that expire with the action code still
`act` and are each followed by an `alive` poll, a timed wait expires and the poll
after it reports the peer not running; `NotifyAndWait` then throws
`"Hornet hanged!"`. Any `n` expired waits each followed by an `alive` poll (the
peer storing nothing, or more generally storing `act` again) raise nothing: the
loop, and `NotifyAndWait`, are still waiting. -/
theorem waitLoop_hung_iff (env : Collaborators) (act : Action) (b : Bridge)
    (script : List PeerStep) :
    ((∃ seg' rest, waitLoop act (post act b).hss script = .hung seg' rest)
      ↔ ∃ pre step rest, script = pre ++ step :: rest
          ∧ (∀ s ∈ pre, s.expires act = true ∧ s.alive = true)
          ∧ step.expires act = true ∧ step.alive = false)
    ∧ (∀ seg' rest, waitLoop act (post act b).hss script = .hung seg' rest →
        NotifyAndWait env act b script
          = .threw (.core "Hornet hanged!") { post act b with hss := seg' } rest)
    ∧ (∀ n : Nat,
        waitLoop act (post act b).hss (List.replicate n idleStep) = .waiting (post act b).hss
        ∧ NotifyAndWait env act b (List.replicate n idleStep) = .waiting (post act b))
    ∧ (∀ waits : List PeerStep, (∀ s ∈ waits, s.expires act = true ∧ s.alive = true) →
        ∃ seg', seg'.act = act
          ∧ waitLoop act (post act b).hss waits = .waiting seg'
          ∧ NotifyAndWait env act b waits = .waiting { post act b with hss := seg' }) := by
  have hpost : (post act b).hss.act = act := rfl
  refine ⟨⟨?_, ?_⟩, ?_, ?_, ?_⟩
  · rintro ⟨seg', rest, h⟩
    obtain ⟨pre, step, h1, h2, h3⟩ := waitLoop_hung_prefix act script _ hpost seg' rest h
    exact ⟨pre, step, rest, h1, h2, h3⟩
  · rintro ⟨pre, step, rest, rfl, hpre, hexp, hdead⟩
    obtain ⟨seg1, hseg1, heq⟩ := waitLoop_expired_alive act pre (step :: rest) _ hpost hpre
    refine ⟨step.apply seg1, rest, ?_⟩
    rw [heq, waitLoop]
    have hact := (apply_act_eq_iff act seg1 step hseg1).mpr hexp
    simp only [hact, ne_eq, not_true_eq_false, if_false, hdead]
    rfl
  · intro seg' rest h
    rw [NotifyAndWait, awaitAndDispatch_eq_waitLoop, h]
  · intro n
    have hw := waitLoop_idle act (post act b).hss hpost n
    refine ⟨hw, ?_⟩
    rw [NotifyAndWait, awaitAndDispatch_eq_waitLoop, hw]
  · intro waits hwaits
    obtain ⟨seg', hseg', heq⟩ := waitLoop_expired_alive act waits [] _ hpost hwaits
    rw [List.append_nil] at heq
    have hw : waitLoop act (post act b).hss waits = .waiting seg' := by rw [heq]; rfl
    refine ⟨seg', hseg', hw, ?_⟩
    rw [NotifyAndWait, awaitAndDispatch_eq_waitLoop, hw]

/-! ## The action code `NotifyAndWait` returns with -/

theorem Serviced.ofOption_ne_ignored (o : Option Bridge) : Serviced.ofOption o ≠ .ignored := by
  cases o <;> simp [Serviced.ofOption]

theorem serviceCallback_ignored_iff (env : Collaborators) (b : Bridge) :
    serviceCallback env b = .ignored ↔ b.hss.act.isCallback = false := by
  unfold serviceCallback
  cases h : b.hss.act <;> simp [Action.isCallback, Serviced.ofOption_ne_ignored]

theorem awaitAndDispatch_return_not_callback (env : Collaborators) (script : List PeerStep)
    (act : Action) (b b' : Bridge) (rest : List PeerStep)
    (hret : awaitAndDispatch env act b script = .returned () b' rest) :
    b'.hss.act.isCallback = false := by
  induction script generalizing act b with
  | nil => simp [awaitAndDispatch] at hret
  | cons s tl ih =>
    rw [awaitAndDispatch] at hret
    simp only at hret
    split at hret
    · split at hret
      · next hnw =>
        cases hret
        simp only [hnw, Action.isCallback]
      · split at hret
        · next hign =>
          cases hret
          exact (serviceCallback_ignored_iff env _).mp hign
        · cases hret
        · exact ih _ _ hret
    · split at hret
      · exact ih _ _ hret
      · cases hret

theorem awaitAndDispatch_return_no_work (env : Collaborators) (script : List PeerStep)
    (hpeer : ∀ s ∈ script, ∀ w, s.write = some w → w.act = .NO_WORK ∨ w.act.isCallback = true)
    (act : Action) (b b' : Bridge) (rest : List PeerStep) (hb : b.hss.act = act)
    (hret : awaitAndDispatch env act b script = .returned () b' rest) :
    b'.hss.act = .NO_WORK := by
  induction script generalizing act b with
  | nil => simp [awaitAndDispatch] at hret
  | cons s tl ih =>
    have htl : ∀ x ∈ tl, ∀ w, x.write = some w → w.act = .NO_WORK ∨ w.act.isCallback = true :=
      fun x hx => hpeer x (List.mem_cons_of_mem _ hx)
    rw [awaitAndDispatch] at hret
    simp only at hret
    split at hret
    · next hne =>
      split at hret
      · next hnw =>
        cases hret
        exact hnw
      · next hnw =>
        have hcb : (s.apply b.hss).act.isCallback = true := by
          cases hw : s.write with
          | none =>
            exfalso
            apply hne
            simp only [PeerStep.apply, hw]
            exact hb
          | some w =>
            simp only [PeerStep.apply, hw] at hnw ⊢
            rcases hpeer s (List.mem_cons_self _ _) w hw with h | h
            · exact absurd h hnw
            · exact h
        split at hret
        · next hign =>
          have := (serviceCallback_ignored_iff env _).mp hign
          simp only at this
          rw [hcb] at this
          cases this
        · cases hret
        · exact ih htl .CB_DONE _ rfl hret
    · next hne =>
      split at hret
      · exact ih htl _ _ (by simpa using hne) hret
      · cases hret

/-- C1, as the code has it: when `NotifyAndWait(X)` returns normally, the action
code in the segment is never one of the four callback codes (it is `NO_WORK` or
one of the codes the `switch` explicitly ignores); and when the peer only ever
stores `NO_WORK` or callback codes, it is `NO_WORK`. -/
theorem NotifyAndWait_return_code (env : Collaborators) (X : Action) (b b' : Bridge)
    (script rest : List PeerStep)
    (hret : NotifyAndWait env X b script = .returned () b' rest) :
    b'.hss.act.isCallback = false
    ∧ ((∀ s ∈ script, ∀ w, s.write = some w → w.act = .NO_WORK ∨ w.act.isCallback = true) →
        b'.hss.act = .NO_WORK) :=
  ⟨awaitAndDispatch_return_not_callback env script X _ b' rest hret,
   fun hpeer => awaitAndDispatch_return_no_work env script hpeer X _ b' rest rfl hret⟩

theorem NotifyAndWait_return_code_witness :
    Action.isCallback Action.NO_WORK = false
    ∧ ((∀ s ∈ [(⟨some ⟨.CB_DATA_READER, encodeLE 8 77 ++ encodeLE 4 9⟩, true⟩ : PeerStep),
                ⟨some ⟨.NO_WORK, [1, 0, 0, 0]⟩, true⟩],
          ∀ w, s.write = some w → w.act = .NO_WORK ∨ w.act.isCallback = true) →
        Action.NO_WORK = Action.NO_WORK) :=
  NotifyAndWait_return_code sampleEnv .OCG_DUEL_PROCESS sampleBridge
    { sampleBridge with
        hss := { act := .NO_WORK, bytes := [1, 0, 0, 0, 7, 0, 8, 0] ++ List.replicate 24 0 },
        trace := [Event.notify .OCG_DUEL_PROCESS, Event.DataFromCode 77 9,
                  Event.notify .CB_DONE] }
    [⟨some ⟨.CB_DATA_READER, encodeLE 8 77 ++ encodeLE 4 9⟩, true⟩,
     ⟨some ⟨.NO_WORK, [1, 0, 0, 0]⟩, true⟩] []
    (by decide)

/-- C1 does not hold as stated: posting `OCG_DUEL_PROCESS` to a peer that answers
by storing `EXIT` makes `NotifyAndWait` return normally with the action code
`EXIT` in the segment. -/
theorem NotifyAndWait_returns_with_ignored_code :
    NotifyAndWait sampleEnv .OCG_DUEL_PROCESS sampleBridge [⟨some ⟨.EXIT, []⟩, true⟩]
      = .returned ()
          { sampleBridge with
              hss := { act := .EXIT, bytes := List.replicate 32 0 },
              trace := [Event.notify .OCG_DUEL_PROCESS] } []
    ∧ ¬ (∀ (env : Collaborators) (X : Action) (b b' : Bridge) (script rest : List PeerStep),
          NotifyAndWait env X b script = .returned () b' rest → b'.hss.act = .NO_WORK) := by
  have h : NotifyAndWait sampleEnv .OCG_DUEL_PROCESS sampleBridge [⟨some ⟨.EXIT, []⟩, true⟩]
      = .returned ()
          { sampleBridge with
              hss := { act := .EXIT, bytes := List.replicate 32 0 },
              trace := [Event.notify .OCG_DUEL_PROCESS] } [] := by decide
  refine ⟨h, fun hall => ?_⟩
  have := hall _ _ _ _ _ _ h
  cases this

/-! ## Construction and destruction: facts -/

theorem Serviced.ofOption_eq_reply (o : Option Bridge) (b : Bridge) :
    Serviced.ofOption o = .reply b ↔ o = some b := by
  cases o <;> simp [Serviced.ofOption]

/-- A callback body leaves the name, the process handle and the shared-memory
namespace as they are. -/
theorem serviceCallback_frame (env : Collaborators) (b b2 : Bridge)
    (h : serviceCallback env b = .reply b2) :
    b2.shmName = b.shmName ∧ b2.proc = b.proc ∧ b2.names = b.names := by
  unfold serviceCallback at h
  split at h
  case h_1 =>
    rw [Serviced.ofOption_eq_reply] at h
    simp only [Option.bind_eq_bind, Option.bind_eq_some, Option.pure_def, Option.some.injEq,
      Prod.exists] at h
    obtain ⟨_, _, _, _, _, _, _, _, _, _, _, _, rfl⟩ := h
    exact ⟨rfl, rfl, rfl⟩
  case h_2 =>
    rw [Serviced.ofOption_eq_reply] at h
    simp only [Option.bind_eq_bind, Option.bind_eq_some, Option.pure_def, Option.some.injEq,
      Prod.exists] at h
    obtain ⟨_, _, _, _, _, _, _, _, _, _, h⟩ := h
    split at h
    · simp only [Option.bind_eq_some, Option.some.injEq] at h
      obtain ⟨_, _, rfl⟩ := h
      exact ⟨rfl, rfl, rfl⟩
    · simp only [Option.some_bind, Option.some.injEq] at h
      subst h
      exact ⟨rfl, rfl, rfl⟩
  case h_3 =>
    rw [Serviced.ofOption_eq_reply] at h
    simp only [Option.bind_eq_bind, Option.bind_eq_some, Option.pure_def, Option.some.injEq,
      Prod.exists] at h
    obtain ⟨_, _, _, _, _, _, _, _, _, _, _, h⟩ := h
    split at h <;> subst h <;> exact ⟨rfl, rfl, rfl⟩
  case h_4 =>
    rw [Serviced.ofOption_eq_reply] at h
    simp only [Option.bind_eq_bind, Option.bind_eq_some, Option.pure_def, Option.some.injEq,
      Prod.exists] at h
    obtain ⟨_, _, _, _, _, _, rfl⟩ := h
    exact ⟨rfl, rfl, rfl⟩
  all_goals cases h

/-- What `NotifyAndWait` throws is the hung-peer exception, and the bridge it
leaves has the same name, process handle and shared-memory namespace, with a
trace that extends the one it started from. -/
theorem awaitAndDispatch_threw (env : Collaborators) (script : List PeerStep) (act : Action)
    (b b' : Bridge) (e : Exception) (rest : List PeerStep)
    (h : awaitAndDispatch env act b script = .threw e b' rest) :
    e = .core "Hornet hanged!" ∧ b'.shmName = b.shmName ∧ b'.proc = b.proc
      ∧ b'.names = b.names := by
  induction script generalizing act b with
  | nil => simp [awaitAndDispatch] at h
  | cons s tl ih =>
    rw [awaitAndDispatch] at h
    simp only at h
    split at h
    · split at h
      · cases h
      · split at h
        · cases h
        · cases h
        · next b2 hrep =>
          obtain ⟨h1, h2, h3, h4⟩ := ih .CB_DONE _ h
          obtain ⟨f1, f2, f3⟩ := serviceCallback_frame env _ b2 hrep
          exact ⟨h1, h2.trans f1, h3.trans f2, h4.trans f3⟩
    · split at h
      · obtain ⟨h1, h2, h3, h4⟩ := ih act _ h
        exact ⟨h1, h2, h3, h4⟩
      · cases h
        exact ⟨rfl, rfl, rfl, rfl⟩

theorem MakeHornetName_not_mem_filter (name : String) (names : List String) :
    name ∉ names.filter (fun n => n ≠ name) := by
  simp [List.mem_filter]

/-- C4: construction returns exactly when the launch succeeds and the heartbeat
`NotifyAndWait` returns, and throws exactly when the launch fails or the heartbeat
throws. When the launch fails, the segment is finalized and its name removed, and
`"Unable to launch child"` is thrown; when the heartbeat throws, the process is
cleaned up, then the segment is finalized and its name removed, and
`"Heartbeat failed"` is thrown. In both cases the name is absent afterwards. -/
theorem HornetWrapper_ctor_outcomes (env : Collaborators) (this : Nat) (seg0 : Segment)
    (names : List String) (proc : Nat) (launched : Bool) (script : List PeerStep) :
    ((∃ b rest, HornetWrapper_ctor env this seg0 names (proc, launched) script
          = .returned () b rest)
      ↔ launched = true ∧ ∃ b rest,
          NotifyAndWait env .HEARTBEAT { initSegment this seg0 names with proc := proc } script
            = .returned () b rest)
    ∧ ((∃ e b rest, HornetWrapper_ctor env this seg0 names (proc, launched) script
          = .threw e b rest)
      ↔ launched = false ∨ ∃ e b rest,
          NotifyAndWait env .HEARTBEAT { initSegment this seg0 names with proc := proc } script
            = .threw e b rest)
    ∧ (launched = false → ∃ b,
        HornetWrapper_ctor env this seg0 names (proc, launched) script
          = .threw (.runtime_error "Unable to launch child") b script
        ∧ b.trace = [Event.shmRemove (MakeHornetName this), Event.shmCreate (MakeHornetName this),
                     Event.Launch (MakeHornetName this),
                     Event.finalize, Event.shmRemove (MakeHornetName this)]
        ∧ MakeHornetName this ∉ b.names)
    ∧ (launched = true → ∀ e b1 rest,
        NotifyAndWait env .HEARTBEAT { initSegment this seg0 names with proc := proc } script
            = .threw e b1 rest →
        ∃ b, HornetWrapper_ctor env this seg0 names (proc, launched) script
              = .threw (.runtime_error "Heartbeat failed") b rest
          ∧ b.trace = b1.trace ++ [Event.CleanUp proc, Event.finalize,
                                   Event.shmRemove (MakeHornetName this)]
          ∧ MakeHornetName this ∉ b.names) := by
  have hthrow : ∀ e b1 rest,
      NotifyAndWait env .HEARTBEAT { initSegment this seg0 names with proc := proc } script
          = .threw e b1 rest →
      e = .core "Hornet hanged!" ∧ b1.shmName = MakeHornetName this ∧ b1.proc = proc := by
    intro e b1 rest h
    obtain ⟨h1, h2, h3, _⟩ := awaitAndDispatch_threw env script _ _ b1 e rest h
    exact ⟨h1, h2, h3⟩
  cases launched with
  | false =>
    refine ⟨⟨?_, ?_⟩, ⟨fun _ => Or.inl rfl, fun _ => ⟨_, _, _, rfl⟩⟩, ?_, ?_⟩
    · rintro ⟨b, rest, h⟩
      simp [HornetWrapper_ctor] at h
    · rintro ⟨h, _⟩
      cases h
    · intro _
      exact ⟨_, rfl, rfl, MakeHornetName_not_mem_filter _ _⟩
    · intro h
      cases h
  | true =>
    have hctor : HornetWrapper_ctor env this seg0 names (proc, true) script
        = match NotifyAndWait env .HEARTBEAT
              { initSegment this seg0 names with proc := proc } script with
          | .threw (.core _) b rest =>
            .threw (.runtime_error "Heartbeat failed") (DestroySharedSegment (CleanUp b)) rest
          | o => o := rfl
    rw [hctor]
    cases ho : NotifyAndWait env .HEARTBEAT
        { initSegment this seg0 names with proc := proc } script with
    | returned v b rest =>
      refine ⟨⟨fun _ => ⟨rfl, b, rest, rfl⟩, fun _ => ⟨b, rest, rfl⟩⟩, ⟨?_, ?_⟩, ?_, ?_⟩
      · rintro ⟨e, b1, r, h⟩
        cases h
      · rintro (h | ⟨e, b1, r, h⟩)
        · cases h
        · cases h
      · intro h
        cases h
      · intro _ e b1 r h
        cases h
    | threw e b rest =>
      obtain ⟨he, hname, hproc⟩ := hthrow e b rest ho
      subst he
      refine ⟨⟨?_, ?_⟩, ⟨fun _ => Or.inr ⟨_, _, _, rfl⟩, fun _ => ⟨_, _, _, rfl⟩⟩, ?_, ?_⟩
      · rintro ⟨b1, r, h⟩
        cases h
      · rintro ⟨_, b1, r, h⟩
        cases h
      · intro h
        cases h
      · intro _ e b1 r h
        cases h
        refine ⟨_, rfl, ?_, ?_⟩
        · simp [DestroySharedSegment, CleanUp, hname, hproc]
        · simp only [DestroySharedSegment, CleanUp, hname]
          exact MakeHornetName_not_mem_filter _ _
    | waiting b =>
      refine ⟨⟨?_, ?_⟩, ⟨?_, ?_⟩, ?_, ?_⟩
      · rintro ⟨b1, r, h⟩
        cases h
      · rintro ⟨_, b1, r, h⟩
        cases h
      · rintro ⟨e, b1, r, h⟩
        cases h
      · rintro (h | ⟨e, b1, r, h⟩)
        · cases h
        · cases h
      · intro h
        cases h
      · intro _ e b1 r h
        cases h
    | undefined =>
      refine ⟨⟨?_, ?_⟩, ⟨?_, ?_⟩, ?_, ?_⟩
      · rintro ⟨b1, r, h⟩
        cases h
      · rintro ⟨_, b1, r, h⟩
        cases h
      · rintro ⟨e, b1, r, h⟩
        cases h
      · rintro (h | ⟨e, b1, r, h⟩)
        · cases h
        · cases h
      · intro h
        cases h
      · intro _ e b1 r h
        cases h

/-- C9: whatever the segment holds and whatever the peer does afterwards,
destruction returns without taking any wait step, having set the action code to
`EXIT`, signalled the peer once, cleaned up the process, finalized the segment and
removed its name, in this order; the name is absent afterwards and the other names
are untouched. -/
theorem HornetWrapper_dtor_effects (b : Bridge) :
    ∃ b' : Bridge,
      (∀ script : List PeerStep, HornetWrapper_dtor b script = .returned () b' script)
      ∧ b'.hss = { b.hss with act := .EXIT }
      ∧ b'.trace = b.trace ++ [Event.notify .EXIT, Event.CleanUp b.proc, Event.finalize,
                               Event.shmRemove b.shmName]
      ∧ b.shmName ∉ b'.names
      ∧ (∀ n, n ≠ b.shmName → (n ∈ b'.names ↔ n ∈ b.names)) := by
  refine ⟨DestroySharedSegment (CleanUp (post .EXIT b)), fun _ => rfl, rfl, ?_, ?_, ?_⟩
  · simp [DestroySharedSegment, CleanUp, post]
  · exact MakeHornetName_not_mem_filter _ _
  · intro n hn
    simp [DestroySharedSegment, CleanUp, post, List.mem_filter, hn]

/-! ## The data-reader callback -/

theorem overlay_eq (payload old : List Nat) (h : payload.length ≤ old.length) :
    overlay payload old = payload ++ old.drop payload.length := by
  unfold overlay
  apply List.take_of_length_le
  simp only [List.length_append, List.length_drop]
  omega

theorem flatMap_encodeLE_length (w : Nat) (l : List Nat) :
    (l.flatMap (encodeLE w)).length = w * l.length := by
  induction l with
  | nil => rfl
  | cons x l ih =>
    rw [List.flatMap_cons, List.length_append, ih, encodeLE_length, List.length_cons]
    ring

theorem writeSetcodes_at (nz junk : List Nat) (hnz : ∀ x ∈ nz, x ≠ 0) (pre tail : List Nat)
    (pos : Nat) (hpos : pos = pre.length) (hfit : 2 * nz.length ≤ tail.length) :
    writeSetcodes (nz ++ 0 :: junk) ⟨pre ++ tail, pos⟩
      = some ⟨pre ++ nz.flatMap (encodeLE 2) ++ tail.drop (2 * nz.length),
              pos + 2 * nz.length⟩ := by
  induction nz generalizing pre tail pos with
  | nil => simp [writeSetcodes]
  | cons x nz ih =>
    have hx : x ≠ 0 := hnz x (List.mem_cons_self _ _)
    have hnz' : ∀ y ∈ nz, y ≠ 0 := fun y hy => hnz y (List.mem_cons_of_mem _ hy)
    simp only [List.length_cons] at hfit
    rw [List.cons_append, writeSetcodes, if_pos hx,
      Write_at 2 x pre tail pos hpos (by omega), Option.some_bind,
      ih hnz' (pre ++ encodeLE 2 x) (tail.drop 2) (pos + 2)
        (by simp [encodeLE_length, hpos]) (by rw [List.length_drop]; omega)]
    have e1 : List.drop (2 * nz.length) (List.drop 2 tail)
        = List.drop (2 * (x :: nz).length) tail := by
      rw [List.drop_drop, List.length_cons]
      congr 1
      omega
    have e2 : pos + 2 + 2 * nz.length = pos + 2 * (x :: nz).length := by
      rw [List.length_cons]
      omega
    rw [e1, e2, List.flatMap_cons, List.append_assoc pre]

theorem decodeSetcodes_at (nz : List Nat) (hnz : ∀ x ∈ nz, x ≠ 0 ∧ x < 2 ^ 16)
    (pre tail : List Nat) (pos : Nat) (hpos : pos = pre.length) (fuel : Nat)
    (hfuel : nz.length < fuel) :
    decodeSetcodes fuel (pre ++ nz.flatMap (encodeLE 2) ++ encodeLE 2 0 ++ tail) pos
      = some (nz ++ [0]) := by
  induction nz generalizing pre pos fuel with
  | nil =>
    cases fuel with
    | zero => simp at hfuel
    | succ fuel =>
      have h := Read_at 2 0 pre tail pos hpos
      simp only [List.flatMap_nil, List.append_nil, decodeSetcodes, h, Nat.zero_mod, if_true,
        List.nil_append]
  | cons x nz ih =>
    cases fuel with
    | zero => simp at hfuel
    | succ fuel =>
      obtain ⟨hx0, hxlt⟩ := hnz x (List.mem_cons_self _ _)
      have hnz' : ∀ y ∈ nz, y ≠ 0 ∧ y < 2 ^ 16 := fun y hy => hnz y (List.mem_cons_of_mem _ hy)
      have h := Read_at 2 x pre (nz.flatMap (encodeLE 2) ++ encodeLE 2 0 ++ tail) pos hpos
      have hmod : x % 256 ^ 2 = x := Nat.mod_eq_of_lt (by norm_num at hxlt ⊢; exact hxlt)
      rw [hmod] at h
      have ih' := ih hnz' (pre ++ encodeLE 2 x) (pos + 2) (by simp [encodeLE_length, hpos]) fuel
        (by simp only [List.length_cons] at hfuel; omega)
      simp only [List.flatMap_cons, List.append_assoc] at h ih' ⊢
      simp only [decodeSetcodes, h, hx0, if_false, ih', Option.map_some', List.cons_append]

/-- The data-reader case of the `switch`, on a buffer that starts with the
supplier reference and the code. -/
theorem serviceCallback_data_reader (env : Collaborators) (b : Bridge)
    (supplier c : Nat) (tail nz junk : List Nat)
    (hact : b.hss.act = .CB_DATA_READER)
    (hbytes : b.hss.bytes = encodeLE 8 supplier ++ encodeLE 4 c ++ tail)
    (hsup : supplier < 2 ^ 64) (hc : c < 2 ^ 32)
    (hset : (env.DataFromCode supplier c).setcodes = nz ++ 0 :: junk)
    (hnz : ∀ x ∈ nz, x ≠ 0)
    (hfit : (env.DataFromCode supplier c).repr.length + 2 * (nz.length + 1)
              ≤ b.hss.bytes.length) :
    serviceCallback env b = .reply
      { b with
          hss := { b.hss with
            bytes := dataReaderReply (env.DataFromCode supplier c) nz
                      ++ b.hss.bytes.drop
                          ((env.DataFromCode supplier c).repr.length + 2 * (nz.length + 1)) },
          trace := b.trace ++ [Event.DataFromCode supplier c] } := by
  have r1 := Read_at 8 supplier [] (encodeLE 4 c ++ tail) 0 rfl
  have r2 := Read_at 4 c (encodeLE 8 supplier) tail (0 + 8) (by rw [encodeLE_length])
  rw [show (256 : Nat) ^ 8 = 2 ^ 64 by norm_num, Nat.mod_eq_of_lt hsup] at r1
  rw [show (256 : Nat) ^ 4 = 2 ^ 32 by norm_num, Nat.mod_eq_of_lt hc] at r2
  simp only [List.nil_append, List.append_assoc] at r1 r2
  have w1 := WriteRecord_at (env.DataFromCode supplier c).repr [] b.hss.bytes 0 rfl (by omega)
  have w2 := writeSetcodes_at nz junk hnz (env.DataFromCode supplier c).repr
    (b.hss.bytes.drop (env.DataFromCode supplier c).repr.length)
    (0 + (env.DataFromCode supplier c).repr.length) (by omega)
    (by rw [List.length_drop]; omega)
  have w3 := Write_at 2 0
    ((env.DataFromCode supplier c).repr ++ nz.flatMap (encodeLE 2))
    ((b.hss.bytes.drop (env.DataFromCode supplier c).repr.length).drop (2 * nz.length))
    (0 + (env.DataFromCode supplier c).repr.length + 2 * nz.length)
    (by rw [List.length_append, flatMap_encodeLE_length]; omega)
    (by simp only [List.length_drop]; omega)
  simp only [List.nil_append] at w1
  rw [← hset] at w2
  unfold serviceCallback
  simp only [hact]
  rw [Serviced.ofOption_eq_reply]
  simp only [hbytes, List.append_assoc, Option.bind_eq_bind, r1, Option.some_bind, r2]
  simp only [← List.append_assoc, ← hbytes]
  simp only [List.drop_drop] at w2 w3
  simp only [w1, Option.some_bind, w2, w3, Option.pure_def, dataReaderReply]
  have e : (env.DataFromCode supplier c).repr.length + 2 * nz.length + 2
      = (env.DataFromCode supplier c).repr.length + 2 * (nz.length + 1) := by omega
  rw [e]

theorem overlay_length (payload old : List Nat) : (overlay payload old).length = old.length := by
  unfold overlay
  rw [List.length_take, List.length_append, List.length_drop]
  omega

theorem awaitAndDispatch_idle (env : Collaborators) (act : Action) (b : Bridge)
    (hb : b.hss.act = act) (n : Nat) (script : List PeerStep) :
    awaitAndDispatch env act b (List.replicate n idleStep ++ script)
      = awaitAndDispatch env act b script := by
  induction n with
  | zero => rfl
  | succ n ih =>
    rw [List.replicate_succ, List.cons_append, awaitAndDispatch]
    simp only [idleStep, PeerStep.apply, hb, ne_eq, not_true_eq_false, if_false, if_true]
    exact ih

theorem awaitAndDispatch_no_work (env : Collaborators) (act : Action) (b : Bridge)
    (hact : act ≠ .NO_WORK) (payload : List Nat) (alive : Bool) (rest : List PeerStep) :
    awaitAndDispatch env act b (⟨some ⟨.NO_WORK, payload⟩, alive⟩ :: rest)
      = .returned () { b with hss := ⟨.NO_WORK, overlay payload b.hss.bytes⟩ } rest := by
  rw [awaitAndDispatch]
  simp only [PeerStep.apply, ne_eq, hact.symm, not_false_eq_true, if_true]

/-- The wait of `NotifyAndWait(act)` woken by a data-reader callback: the host
replies and goes on as `NotifyAndWait(CB_DONE)`. -/
theorem awaitAndDispatch_data_reader (env : Collaborators) (act : Action) (b : Bridge)
    (supplier c : Nat) (extra nz junk : List Nat) (alive : Bool) (rest : List PeerStep)
    (hact : act ≠ .CB_DATA_READER)
    (hsup : supplier < 2 ^ 64) (hc : c < 2 ^ 32)
    (hset : (env.DataFromCode supplier c).setcodes = nz ++ 0 :: junk)
    (hnz : ∀ x ∈ nz, x ≠ 0)
    (hpay : 8 + 4 + extra.length ≤ b.hss.bytes.length)
    (hfit : (env.DataFromCode supplier c).repr.length + 2 * (nz.length + 1)
              ≤ b.hss.bytes.length) :
    awaitAndDispatch env act b
        (⟨some ⟨.CB_DATA_READER, encodeLE 8 supplier ++ encodeLE 4 c ++ extra⟩, alive⟩ :: rest)
      = awaitAndDispatch env .CB_DONE
          { b with
              hss := { act := .CB_DONE,
                       bytes := dataReaderReply (env.DataFromCode supplier c) nz
                          ++ (overlay (encodeLE 8 supplier ++ encodeLE 4 c ++ extra)
                                b.hss.bytes).drop
                              ((env.DataFromCode supplier c).repr.length + 2 * (nz.length + 1)) },
              trace := b.trace ++ [Event.DataFromCode supplier c, Event.notify .CB_DONE] }
          rest := by
  have hlen : (encodeLE 8 supplier ++ encodeLE 4 c ++ extra).length ≤ b.hss.bytes.length := by
    simp only [List.length_append, encodeLE_length]
    exact hpay
  have hov := overlay_eq _ _ hlen
  have hsc := serviceCallback_data_reader env
    { b with hss := ⟨.CB_DATA_READER,
        overlay (encodeLE 8 supplier ++ encodeLE 4 c ++ extra) b.hss.bytes⟩ }
    supplier c (extra ++ b.hss.bytes.drop (encodeLE 8 supplier ++ encodeLE 4 c ++ extra).length)
    nz junk rfl (by rw [hov]; simp only [List.append_assoc]) hsup hc hset hnz
    (by simp only [overlay_length]; exact hfit)
  rw [awaitAndDispatch]
  simp only [PeerStep.apply, ne_eq, hact.symm, not_false_eq_true, if_true, reduceCtorEq, if_false]
  rw [hsc]
  simp only [post, List.append_assoc, List.singleton_append]

theorem toInt32_ofInt32 (s : Int) (hlo : -2 ^ 31 ≤ s) (hhi : s < 2 ^ 31) :
    toInt32 (ofInt32 s) = s := by
  unfold toInt32 ofInt32
  have h1 : (0 : Int) ≤ s % 2 ^ 32 := Int.emod_nonneg _ (by norm_num)
  have h2 : s % 2 ^ 32 < 2 ^ 32 := Int.emod_lt_of_pos _ (by norm_num)
  have h3 : ((s % 2 ^ 32).toNat : Int) = s % 2 ^ 32 := Int.toNat_of_nonneg h1
  have h4 : (s % 2 ^ 32).toNat % 2 ^ 32 = (s % 2 ^ 32).toNat := by
    apply Nat.mod_eq_of_lt
    omega
  rw [h4]
  split <;> omega

theorem ofInt32_lt (s : Int) : ofInt32 s < 2 ^ 32 := by
  unfold ofInt32
  have h1 : (0 : Int) ≤ s % 2 ^ 32 := Int.emod_nonneg _ (by norm_num)
  have h2 : s % 2 ^ 32 < 2 ^ 32 := Int.emod_lt_of_pos _ (by norm_num)
  omega

/-- C8: a data-reader callback whose payload is a supplier reference followed by
a `uint32` code `c` makes the host call `DataFromCode` with `c` and then post
`CB_DONE`; when it is posted the buffer holds, from its start, the descriptor,
the `k` non-zero trailing values in their order as 16-bit fields and one 16-bit
zero, the rest of the buffer being as the peer left it; read back as a
zero-terminated list the trailing values are the `k` values and the final zero,
`k + 1` entries. The descriptor's trailing list is `k` non-zero 16-bit values and
a zero, and the reply fits in the buffer. -/
theorem data_reader_reply (env : Collaborators) (act : Action) (b : Bridge)
    (supplier c : Nat) (extra nz junk : List Nat) (alive : Bool) (rest : List PeerStep)
    (hact : act ≠ .CB_DATA_READER)
    (hsup : supplier < 2 ^ 64) (hc : c < 2 ^ 32)
    (hset : (env.DataFromCode supplier c).setcodes = nz ++ 0 :: junk)
    (hnz : ∀ x ∈ nz, x ≠ 0 ∧ x < 2 ^ 16)
    (hpay : 8 + 4 + extra.length ≤ b.hss.bytes.length)
    (hfit : (env.DataFromCode supplier c).repr.length + 2 * (nz.length + 1)
              ≤ b.hss.bytes.length) :
    ∃ B : Bridge,
      NotifyAndWait env act b
          (⟨some ⟨.CB_DATA_READER, encodeLE 8 supplier ++ encodeLE 4 c ++ extra⟩, alive⟩ :: rest)
        = awaitAndDispatch env .CB_DONE B rest
      ∧ NotifyAndWait env act b
          [⟨some ⟨.CB_DATA_READER, encodeLE 8 supplier ++ encodeLE 4 c ++ extra⟩, alive⟩]
        = .waiting B
      ∧ B.hss.act = .CB_DONE
      ∧ B.trace = b.trace ++ [Event.notify act, Event.DataFromCode supplier c,
                              Event.notify .CB_DONE]
      ∧ B.hss.bytes = dataReaderReply (env.DataFromCode supplier c) nz
          ++ (overlay (encodeLE 8 supplier ++ encodeLE 4 c ++ extra) b.hss.bytes).drop
              ((env.DataFromCode supplier c).repr.length + 2 * (nz.length + 1))
      ∧ B.hss.bytes.length = b.hss.bytes.length
      ∧ decodeSetcodes (nz.length + 1) B.hss.bytes (env.DataFromCode supplier c).repr.length
          = some (nz ++ [0])
      ∧ (nz ++ [0]).length = nz.length + 1 := by
  have hnz0 : ∀ x ∈ nz, x ≠ 0 := fun x hx => (hnz x hx).1
  have h := fun r => awaitAndDispatch_data_reader env act (post act b) supplier c extra nz junk
    alive r hact hsup hc hset hnz0 hpay hfit
  refine ⟨_, h rest, ?_, rfl, ?_, rfl, ?_, ?_, by simp⟩
  · rw [NotifyAndWait, h []]
    rfl
  · simp [post]
  · have hp : (post act b).hss.bytes = b.hss.bytes := rfl
    simp only [List.length_append, dataReaderReply, flatMap_encodeLE_length, encodeLE_length,
      List.length_drop, overlay_length, hp]
    omega
  · simp only [dataReaderReply]
    exact decodeSetcodes_at nz hnz _ _ _ rfl _ (Nat.lt_succ_self _)

theorem data_reader_reply_witness :
    ∃ B : Bridge,
      NotifyAndWait sampleEnv .OCG_DUEL_PROCESS sampleBridge
          (⟨some ⟨.CB_DATA_READER, encodeLE 8 77 ++ encodeLE 4 9 ++ []⟩, true⟩ :: [])
        = awaitAndDispatch sampleEnv .CB_DONE B []
      ∧ NotifyAndWait sampleEnv .OCG_DUEL_PROCESS sampleBridge
          [⟨some ⟨.CB_DATA_READER, encodeLE 8 77 ++ encodeLE 4 9 ++ []⟩, true⟩]
        = .waiting B
      ∧ B.hss.act = .CB_DONE
      ∧ B.trace = sampleBridge.trace ++ [Event.notify .OCG_DUEL_PROCESS, Event.DataFromCode 77 9,
                              Event.notify .CB_DONE]
      ∧ B.hss.bytes = dataReaderReply (sampleEnv.DataFromCode 77 9) [7, 8]
          ++ (overlay (encodeLE 8 77 ++ encodeLE 4 9 ++ []) sampleBridge.hss.bytes).drop
              ((sampleEnv.DataFromCode 77 9).repr.length + 2 * ([7, 8].length + 1))
      ∧ B.hss.bytes.length = sampleBridge.hss.bytes.length
      ∧ decodeSetcodes ([7, 8].length + 1) B.hss.bytes (sampleEnv.DataFromCode 77 9).repr.length
          = some ([7, 8] ++ [0])
      ∧ ([7, 8] ++ [0]).length = [7, 8].length + 1 :=
  data_reader_reply sampleEnv .OCG_DUEL_PROCESS sampleBridge 77 9 [] [7, 8] [] true []
    (by decide) (by norm_num) (by norm_num) rfl (by decide) (by decide) (by decide)

/-- C3: when the peer answers a `Process` request (after any number of expired
waits) by posting one data-reader callback carrying a supplier reference and the
code `c`, and answers the following `CB_DONE` (again after any number of expired
waits) by storing the status `s` and posting `NO_WORK`, then `Process` returns
`s`, and between its start and its return it has called `DataFromCode` exactly
once, with the argument `c`. The descriptor's trailing list is zero-terminated
and the payloads and the reply fit in the buffer. -/
theorem Process_data_reader_callback (env : Collaborators) (duel : Nat) (b : Bridge)
    (supplier c : Nat) (s : Int) (nz junk : List Nat) (n1 n2 : Nat) (a1 a2 : Bool)
    (rest : List PeerStep)
    (hsup : supplier < 2 ^ 64) (hc : c < 2 ^ 32)
    (hlo : -2 ^ 31 ≤ s) (hhi : s < 2 ^ 31)
    (hset : (env.DataFromCode supplier c).setcodes = nz ++ 0 :: junk)
    (hnz : ∀ x ∈ nz, x ≠ 0)
    (hcap : 12 ≤ b.hss.bytes.length)
    (hfit : (env.DataFromCode supplier c).repr.length + 2 * (nz.length + 1)
              ≤ b.hss.bytes.length) :
    ∃ b' : Bridge,
      Process env duel b
          (List.replicate n1 idleStep
            ++ ⟨some ⟨.CB_DATA_READER, encodeLE 8 supplier ++ encodeLE 4 c⟩, a1⟩
            :: (List.replicate n2 idleStep
            ++ ⟨some ⟨.NO_WORK, encodeLE 4 (ofInt32 s)⟩, a2⟩ :: rest))
        = .returned s b' rest
      ∧ b'.trace = b.trace ++ [Event.notify .OCG_DUEL_PROCESS, Event.DataFromCode supplier c,
                               Event.notify .CB_DONE]
      ∧ b'.hss.act = .NO_WORK := by
  have hw := Write_at 8 duel [] b.hss.bytes 0 rfl (by omega)
  simp only [List.nil_append] at hw
  have hlen : (encodeLE 8 duel ++ List.drop 8 b.hss.bytes).length = b.hss.bytes.length := by
    simp only [List.length_append, encodeLE_length, List.length_drop]
    omega
  have hcb := awaitAndDispatch_data_reader env .OCG_DUEL_PROCESS
    (post .OCG_DUEL_PROCESS (b.withBytes (encodeLE 8 duel ++ List.drop 8 b.hss.bytes)))
    supplier c [] nz junk a1
    (List.replicate n2 idleStep ++ ⟨some ⟨.NO_WORK, encodeLE 4 (ofInt32 s)⟩, a2⟩ :: rest)
    (by decide) hsup hc hset hnz
    (by show 8 + 4 + 0 ≤ (encodeLE 8 duel ++ List.drop 8 b.hss.bytes).length; omega)
    (by show _ ≤ (encodeLE 8 duel ++ List.drop 8 b.hss.bytes).length; omega)
  rw [List.append_nil] at hcb
  simp only [Process, hw, NotifyAndWait]
  rw [awaitAndDispatch_idle env .OCG_DUEL_PROCESS _ rfl n1, hcb,
    awaitAndDispatch_idle env .CB_DONE _ rfl n2,
    awaitAndDispatch_no_work env .CB_DONE _ (by decide)]
  simp only [Outcome.andThen]
  have hov : ∀ old : List Nat, 4 ≤ old.length →
      Read 4 ⟨overlay (encodeLE 4 (ofInt32 s)) old, 0⟩
        = some (ofInt32 s, ⟨overlay (encodeLE 4 (ofInt32 s)) old, 0 + 4⟩) := by
    intro old hold
    rw [overlay_eq _ _ (by rw [encodeLE_length]; exact hold)]
    have := Read_at 4 (ofInt32 s) [] (old.drop (encodeLE 4 (ofInt32 s)).length) 0 rfl
    rw [show (256 : Nat) ^ 4 = 2 ^ 32 by norm_num, Nat.mod_eq_of_lt (ofInt32_lt s)] at this
    simpa using this
  have hp : (post .OCG_DUEL_PROCESS
      (b.withBytes (encodeLE 8 duel ++ List.drop 8 b.hss.bytes))).hss.bytes
        = encodeLE 8 duel ++ List.drop 8 b.hss.bytes := rfl
  rw [hov _ (by
    simp only [List.length_append, dataReaderReply, flatMap_encodeLE_length, encodeLE_length,
      List.length_drop, overlay_length, hp]
    omega)]
  simp only [toInt32_ofInt32 s hlo hhi]
  refine ⟨_, rfl, ?_, rfl⟩
  simp [post, Bridge.withBytes]

theorem Process_data_reader_callback_witness :
    ∃ b' : Bridge,
      Process sampleEnv 5 sampleBridge
          (List.replicate 1 idleStep
            ++ ⟨some ⟨.CB_DATA_READER, encodeLE 8 77 ++ encodeLE 4 9⟩, true⟩
            :: (List.replicate 2 idleStep
            ++ ⟨some ⟨.NO_WORK, encodeLE 4 (ofInt32 (-3))⟩, true⟩ :: []))
        = .returned (-3) b' []
      ∧ b'.trace = sampleBridge.trace ++ [Event.notify .OCG_DUEL_PROCESS, Event.DataFromCode 77 9,
                               Event.notify .CB_DONE]
      ∧ b'.hss.act = .NO_WORK :=
  Process_data_reader_callback sampleEnv 5 sampleBridge 77 9 (-3) [7, 8] [] 1 2 true true []
    (by norm_num) (by norm_num) (by norm_num) (by norm_num) rfl (by decide) (by decide)
    (by decide)

end Ignis.Multirole.Core
